import Mathlib

/-!
Verification of the daily-seconds-kline downloader
(`src/daily-seconds-kline/src/main.rs`).

The program walks a time range `[overall_start_ms, overall_end_ms]`
(milliseconds since the Unix epoch, UTC) in page-sized windows of
`10 * 60000` ms, fetches kline records for each window from a remote
page source, accumulates the records of the UTC day under the cursor,
and writes one CSV file per day.

Shallow embedding conventions:
* Timestamps are `Nat` (all reachable runs use non-negative `i64`
  values far below any overflow boundary).
* The page source (the HTTP fetch at lines 52-60 of `main.rs`) is a
  parameter `f : Nat → Nat → List KlineRow` giving the decoded page
  for a requested window `[start, end]`.
* One iteration of the `loop` in `main` is `loopBody`; it returns the
  events of that iteration (the fetch request and any `write_file`
  calls), the mutated state (`start_time_ms`, `cache_tick`), and
  whether the `break` at line 122 fired.
* `runLoop` iterates `loopBody` with explicit fuel, stopping at the
  break.
-/

/-- Mirror of the Rust struct `KlineRow` (field order preserved). -/
structure KlineRow where
  open_time : Nat
  open_price : String
  high : String
  low : String
  close : String
  volume : String
  close_time : Nat
  quote_volume : String
  num_of_trades : Nat
  taker_buy_base_vol : String
  taker_buy_quote_vol : String
  unused : String
deriving Repr, DecidableEq

/-- The mutable loop state of `main`: the cursor `start_time_ms` and the
day accumulator `cache_tick`. -/
structure LoopState where
  start_time_ms : Nat
  cache_tick : List KlineRow
deriving Repr, DecidableEq

/-- Milliseconds per UTC day. -/
def dayMs : Nat := 86400000

/-- `next_day_ms` of `main.rs` lines 63-70: take the datetime at `t`,
add one calendar day (on the UTC timeline: `+86400000` ms), and
truncate to that day's `00:00:00`.  For `t ≥ 0` this is UTC midnight
strictly after the day containing `t`. -/
def next_day_ms (t : Nat) : Nat := ((t + dayMs) / dayMs) * dayMs

/-- Civil-calendar date (proleptic Gregorian, as `chrono` uses) from a
count of days since 1970-01-01.  Returns `(year, month, day)`. -/
def civilFromDays (z : Nat) : Nat × Nat × Nat :=
  let z' := z + 719468
  let era := z' / 146097
  let doe := z' % 146097
  let yoe := (doe - doe / 1460 + doe / 36524 - doe / 146097) / 365
  let y := yoe + era * 400
  let doy := doe - (365 * yoe + yoe / 4 - yoe / 100)
  let mp := (5 * doy + 2) / 153
  let d := doy - (153 * mp + 2) / 5 + 1
  let m := if mp < 10 then mp + 3 else mp - 9
  (if m ≤ 2 then y + 1 else y, m, d)

/-- `(year, month, day)` of the UTC day containing timestamp `t`
(`start_time.year(), .month(), .day()` in `main.rs`). -/
def utcYmd (t : Nat) : Nat × Nat × Nat := civilFromDays (t / dayMs)

/-- Observable actions of one loop iteration. -/
inductive Ev where
  | fetchReq (startMs endMs : Nat) (page : List KlineRow)
  | writeReq (batch : List KlineRow) (year month day : Nat)
deriving Repr, DecidableEq

/-- `end_time_ms` of line 52: `min(start_time_ms + 10 * 60_000 - 1, max_end_time_ms)`. -/
def end_time_ms (max_end_time_ms : Nat) (s : LoopState) : Nat :=
  min (s.start_time_ms + 10 * 60000 - 1) max_end_time_ms

/-- The page the source returns for the current iteration's window. -/
def pageOf (f : Nat → Nat → List KlineRow) (max_end_time_ms : Nat) (s : LoopState) :
    List KlineRow :=
  f s.start_time_ms (end_time_ms max_end_time_ms s)

/-- Line 74's filter: records of the page that still belong to the
cursor's UTC day. -/
def keptOf (f : Nat → Nat → List KlineRow) (max_end_time_ms : Nat) (s : LoopState) :
    List KlineRow :=
  (pageOf f max_end_time_ms s).filter
    (fun r => decide (r.open_time < next_day_ms s.start_time_ms))

/-- One iteration of the `loop` in `main` (lines 51-125).  Returns
`(events, state after the iteration, whether the loop broke)`. -/
def loopBody (f : Nat → Nat → List KlineRow) (max_end_time_ms : Nat) (s : LoopState) :
    List Ev × LoopState × Bool :=
  let endMs := end_time_ms max_end_time_ms s
  let resp := pageOf f max_end_time_ms s
  let nd := next_day_ms s.start_time_ms
  let key := utcYmd s.start_time_ms
  let cache := s.cache_tick ++ keptOf f max_end_time_ms s
  let fe := Ev.fetchReq s.start_time_ms endMs resp
  let branch : List Ev × LoopState × Bool :=
    match resp.getLast? with
    | none =>
      if nd ≤ endMs then
        ([Ev.writeReq cache key.1 key.2.1 key.2.2], ⟨nd, []⟩, false)
      else
        ([], ⟨endMs + 1000, cache⟩, false)
    | some last =>
      if nd ≤ last.close_time + 1 then
        ([Ev.writeReq cache key.1 key.2.1 key.2.2], ⟨last.open_time + 1000, []⟩, true)
      else
        ([], ⟨last.open_time + 1000, cache⟩, false)
  match branch with
  | (evs, s1, continued) =>
    if continued then
      (fe :: evs, s1, false)
    else if max_end_time_ms ≤ endMs then
      (fe :: evs ++
        (if s1.cache_tick.isEmpty then [] else
          [Ev.writeReq s1.cache_tick key.1 key.2.1 key.2.2]),
       s1, true)
    else
      (fe :: evs, s1, false)

/-- Iterate `loopBody` with fuel, stopping when the loop breaks.
Returns `(all events, final state, whether the break was reached)`. -/
def runLoop (f : Nat → Nat → List KlineRow) (max_end_time_ms : Nat) :
    Nat → LoopState → List Ev × LoopState × Bool
  | 0, s => ([], s, false)
  | n + 1, s =>
    match loopBody f max_end_time_ms s with
    | (evs, s', broke) =>
      if broke then (evs, s', true)
      else
        match runLoop f max_end_time_ms n s' with
        | (evs', s'', broke') => (evs ++ evs', s'', broke')

/-- The `write_file` calls contained in an event list, in order. -/
def writesOf : List Ev → List (List KlineRow × Nat × Nat × Nat)
  | [] => []
  | Ev.fetchReq _ _ _ :: t => writesOf t
  | Ev.writeReq b y mo d :: t => (b, y, mo, d) :: writesOf t

/-- The page-source requests contained in an event list, in order. -/
def requestsOf : List Ev → List (Nat × Nat)
  | [] => []
  | Ev.fetchReq a b _ :: t => (a, b) :: requestsOf t
  | Ev.writeReq _ _ _ _ :: t => requestsOf t

/-- One CSV row of `write_file`: the record's fields in struct order,
comma-separated, no header. -/
def csvRow (r : KlineRow) : String :=
  String.intercalate ","
    [toString r.open_time, r.open_price, r.high, r.low, r.close, r.volume,
     toString r.close_time, r.quote_volume, toString r.num_of_trades,
     r.taker_buy_base_vol, r.taker_buy_quote_vol, r.unused]

/-- Pure content of `write_file` (lines 130-144): the CSV rows written
for a batch.  `write_file` succeeds on any batch; an empty batch
produces an empty file. -/
def write_file (data : List KlineRow) : List String := data.map csvRow

/-- Page-source contract, first half: every returned record's
`open_time` lies in the requested window. -/
def InWindow (f : Nat → Nat → List KlineRow) : Prop :=
  ∀ a b r, r ∈ f a b → a ≤ r.open_time ∧ r.open_time ≤ b

/-- Page-source contract, second half: every page is in strictly
ascending `open_time` order. -/
def AscendingPages (f : Nat → Nat → List KlineRow) : Prop :=
  ∀ a b, (f a b).Pairwise (fun r r' => r.open_time < r'.open_time)

/-- A record with the given open/close times (other fields inert). -/
def mkRow (o c : Nat) : KlineRow :=
  ⟨o, "0", "0", "0", "0", "0", c, "0", 0, "0", "0", "0"⟩

/-- A page source backed by a fixed table of records: returns exactly
the table rows whose `open_time` lies in the requested window. -/
def tableFetch (tbl : List KlineRow) (a b : Nat) : List KlineRow :=
  tbl.filter (fun r => decide (a ≤ r.open_time) && decide (r.open_time ≤ b))

example : next_day_ms 0 = 86400000 := by decide
example : next_day_ms 86399999 = 86400000 := by decide
example : next_day_ms 86400000 = 172800000 := by decide
example : civilFromDays 0 = (1970, 1, 1) := by decide
example : civilFromDays 1 = (1970, 1, 2) := by decide
example : civilFromDays 59 = (1970, 3, 1) := by decide

/-! ### Arithmetic and list helper lemmas -/

theorem lt_next_day_ms (t : Nat) : t < next_day_ms t := by
  simp only [next_day_ms, dayMs]
  omega

theorem next_day_ms_mono {a b : Nat} (h : a ≤ b) : next_day_ms a ≤ next_day_ms b := by
  simp only [next_day_ms, dayMs]
  have : (a + 86400000) / 86400000 ≤ (b + 86400000) / 86400000 :=
    Nat.div_le_div_right (by omega)
  exact Nat.mul_le_mul_right _ this

theorem next_day_ms_day_eq {a b : Nat} (ha : a ≤ b) (hb : b < next_day_ms a) :
    b / dayMs = a / dayMs := by
  simp only [next_day_ms, dayMs] at hb ⊢
  omega

theorem mem_of_getLast? {α : Type} {l : List α} {a : α} (h : l.getLast? = some a) :
    a ∈ l := by
  cases l with
  | nil => simp at h
  | cons x t =>
      rw [List.getLast?_eq_getLast _ (by simp)] at h
      exact (Option.some_inj.mp h) ▸ List.getLast_mem _

theorem le_getLast_of_pairwise {l : List KlineRow} {r last : KlineRow}
    (hp : l.Pairwise (fun a b => a.open_time < b.open_time))
    (hr : r ∈ l) (hl : l.getLast? = some last) : r.open_time ≤ last.open_time := by
  induction l with
  | nil => simp at hr
  | cons x t ih =>
      rcases List.pairwise_cons.mp hp with ⟨hx, ht⟩
      cases t with
      | nil =>
          simp at hl hr
          subst hl; subst hr; exact Nat.le_refl _
      | cons y u =>
          have hl' : (y :: u).getLast? = some last := by
            simpa [List.getLast?] using hl
          rcases List.mem_cons.mp hr with rfl | hmem
          · have hlast : last ∈ y :: u := mem_of_getLast? hl'
            exact Nat.le_of_lt (hx last hlast)
          · exact ih ht hmem hl'

theorem mem_keptOf {f : Nat → Nat → List KlineRow} {m : Nat} {s : LoopState}
    {r : KlineRow} :
    r ∈ keptOf f m s ↔ r ∈ pageOf f m s ∧ r.open_time < next_day_ms s.start_time_ms := by
  simp [keptOf, List.mem_filter]

/-! ### Branch-characterization lemmas for `loopBody` -/

theorem loopBody_empty_flush {f : Nat → Nat → List KlineRow} {m : Nat} {s : LoopState}
    (hp : pageOf f m s = [])
    (hnd : next_day_ms s.start_time_ms ≤ end_time_ms m s) :
    loopBody f m s =
      ([Ev.fetchReq s.start_time_ms (end_time_ms m s) [],
        Ev.writeReq s.cache_tick (utcYmd s.start_time_ms).1
          (utcYmd s.start_time_ms).2.1 (utcYmd s.start_time_ms).2.2],
       ⟨next_day_ms s.start_time_ms, []⟩,
       decide (m ≤ end_time_ms m s)) := by
  rcases Decidable.em (m ≤ end_time_ms m s) with h | h
  · simp [loopBody, keptOf, hp, hnd, h]
  · simp [loopBody, keptOf, hp, hnd, h]

theorem loopBody_empty_skip {f : Nat → Nat → List KlineRow} {m : Nat} {s : LoopState}
    (hp : pageOf f m s = [])
    (hnd : ¬ next_day_ms s.start_time_ms ≤ end_time_ms m s)
    (hbr : ¬ m ≤ end_time_ms m s) :
    loopBody f m s =
      ([Ev.fetchReq s.start_time_ms (end_time_ms m s) []],
       ⟨end_time_ms m s + 1000, s.cache_tick⟩, false) := by
  simp only [loopBody, keptOf, hp, List.filter_nil, List.append_nil, List.getLast?_nil,
    if_neg hnd, if_neg hbr, Bool.false_eq_true, ite_false]

theorem loopBody_empty_skip_break {f : Nat → Nat → List KlineRow} {m : Nat} {s : LoopState}
    (hp : pageOf f m s = [])
    (hnd : ¬ next_day_ms s.start_time_ms ≤ end_time_ms m s)
    (hbr : m ≤ end_time_ms m s) :
    loopBody f m s =
      (Ev.fetchReq s.start_time_ms (end_time_ms m s) [] ::
        (if s.cache_tick.isEmpty then [] else
          [Ev.writeReq s.cache_tick (utcYmd s.start_time_ms).1
            (utcYmd s.start_time_ms).2.1 (utcYmd s.start_time_ms).2.2]),
       ⟨end_time_ms m s + 1000, s.cache_tick⟩, true) := by
  simp only [loopBody, keptOf, hp, List.filter_nil, List.append_nil, List.getLast?_nil,
    if_neg hnd, if_pos hbr, Bool.false_eq_true, ite_false, List.nil_append,
    List.singleton_append]

theorem loopBody_cross {f : Nat → Nat → List KlineRow} {m : Nat} {s : LoopState}
    {last : KlineRow}
    (hl : (pageOf f m s).getLast? = some last)
    (hc : next_day_ms s.start_time_ms ≤ last.close_time + 1) :
    loopBody f m s =
      ([Ev.fetchReq s.start_time_ms (end_time_ms m s) (pageOf f m s),
        Ev.writeReq (s.cache_tick ++ keptOf f m s) (utcYmd s.start_time_ms).1
          (utcYmd s.start_time_ms).2.1 (utcYmd s.start_time_ms).2.2],
       ⟨last.open_time + 1000, []⟩, false) := by
  simp only [loopBody, hl, if_pos hc, if_true]

theorem loopBody_within {f : Nat → Nat → List KlineRow} {m : Nat} {s : LoopState}
    {last : KlineRow}
    (hl : (pageOf f m s).getLast? = some last)
    (hc : ¬ next_day_ms s.start_time_ms ≤ last.close_time + 1)
    (hbr : ¬ m ≤ end_time_ms m s) :
    loopBody f m s =
      ([Ev.fetchReq s.start_time_ms (end_time_ms m s) (pageOf f m s)],
       ⟨last.open_time + 1000, s.cache_tick ++ keptOf f m s⟩, false) := by
  simp only [loopBody, hl, if_neg hc, if_neg hbr, Bool.false_eq_true, ite_false]

theorem loopBody_within_break {f : Nat → Nat → List KlineRow} {m : Nat} {s : LoopState}
    {last : KlineRow}
    (hl : (pageOf f m s).getLast? = some last)
    (hc : ¬ next_day_ms s.start_time_ms ≤ last.close_time + 1)
    (hbr : m ≤ end_time_ms m s) :
    loopBody f m s =
      (Ev.fetchReq s.start_time_ms (end_time_ms m s) (pageOf f m s) ::
        (if (s.cache_tick ++ keptOf f m s).isEmpty then [] else
          [Ev.writeReq (s.cache_tick ++ keptOf f m s) (utcYmd s.start_time_ms).1
            (utcYmd s.start_time_ms).2.1 (utcYmd s.start_time_ms).2.2]),
       ⟨last.open_time + 1000, s.cache_tick ++ keptOf f m s⟩, true) := by
  simp only [loopBody, hl, if_neg hc, if_pos hbr, Bool.false_eq_true, ite_false,
    List.nil_append, List.singleton_append]

/-! ### `runLoop` unfolding and basic step facts -/

theorem runLoop_succ_broke {f : Nat → Nat → List KlineRow} {m n : Nat} {s : LoopState}
    {evs : List Ev} {s' : LoopState}
    (h : loopBody f m s = (evs, s', true)) :
    runLoop f m (n + 1) s = (evs, s', true) := by
  simp [runLoop, h]

theorem runLoop_succ_cont {f : Nat → Nat → List KlineRow} {m n : Nat} {s : LoopState}
    {evs : List Ev} {s' : LoopState}
    (h : loopBody f m s = (evs, s', false)) :
    runLoop f m (n + 1) s =
      ((evs ++ (runLoop f m n s').1, (runLoop f m n s').2.1, (runLoop f m n s').2.2)) := by
  simp [runLoop, h]

/-- If the page source honours the window bound, a page requested with an
inverted window (`start > end`) is empty. -/
theorem page_empty_of_inverted {f : Nat → Nat → List KlineRow} {m : Nat} {s : LoopState}
    (hw : InWindow f) (h : end_time_ms m s < s.start_time_ms) :
    pageOf f m s = [] := by
  cases hpage : pageOf f m s with
  | nil => rfl
  | cons r t =>
      have hr : r ∈ f s.start_time_ms (end_time_ms m s) := by
        have : r ∈ pageOf f m s := by rw [hpage]; exact List.mem_cons_self _ _
        simpa [pageOf] using this
      rcases hw _ _ _ hr with ⟨h1, h2⟩
      omega

/-- Once the cursor is past `max_end_time_ms`, the iteration breaks. -/
theorem loopBody_breaks_past_end {f : Nat → Nat → List KlineRow} {m : Nat} {s : LoopState}
    (hw : InWindow f) (h : m < s.start_time_ms) :
    (loopBody f m s).2.2 = true := by
  have hend : end_time_ms m s = m := by
    simp only [end_time_ms]
    omega
  have hp : pageOf f m s = [] := page_empty_of_inverted hw (by omega)
  have hnd : ¬ next_day_ms s.start_time_ms ≤ end_time_ms m s := by
    have := lt_next_day_ms s.start_time_ms
    omega
  rw [loopBody_empty_skip_break hp hnd (by omega)]

/-- Every non-breaking iteration strictly advances the cursor
(needs only the in-window half of the page contract). -/
theorem cursor_advances {f : Nat → Nat → List KlineRow} {m : Nat} {s : LoopState}
    (hw : InWindow f) (h : (loopBody f m s).2.2 = false) :
    s.start_time_ms < (loopBody f m s).2.1.start_time_ms := by
  have hnb : ¬ m < s.start_time_ms := by
    intro hlt
    rw [loopBody_breaks_past_end hw hlt] at h
    exact Bool.true_eq_false.mp h
  cases hl : (pageOf f m s).getLast? with
  | none =>
      have hp : pageOf f m s = [] := List.getLast?_eq_none_iff.mp hl
      by_cases hnd : next_day_ms s.start_time_ms ≤ end_time_ms m s
      · rw [loopBody_empty_flush hp hnd]
        exact lt_next_day_ms s.start_time_ms
      · by_cases hbr : m ≤ end_time_ms m s
        · rw [loopBody_empty_skip_break hp hnd hbr] at h
          exact absurd h (by simp)
        · rw [loopBody_empty_skip hp hnd hbr]
          dsimp only
          simp only [end_time_ms]
          omega
  | some last =>
      have hmem : last ∈ pageOf f m s := mem_of_getLast? hl
      have hlast : s.start_time_ms ≤ last.open_time := (hw _ _ _ hmem).1
      by_cases hc : next_day_ms s.start_time_ms ≤ last.close_time + 1
      · rw [loopBody_cross hl hc]
        dsimp only
        omega
      · by_cases hbr : m ≤ end_time_ms m s
        · rw [loopBody_within_break hl hc hbr] at h
          exact absurd h (by simp)
        · rw [loopBody_within hl hc hbr]
          dsimp only
          omega

/-- With an in-window page source, the run terminates: some fuel reaches
the `break`.  (Measure: the cursor strictly increases until it passes
`max_end_time_ms`, at which point the iteration breaks.) -/
theorem runLoop_reaches_break {f : Nat → Nat → List KlineRow} {m : Nat}
    (hw : InWindow f) :
    ∀ k s, m + 1 ≤ s.start_time_ms + k →
      ∃ n, n ≤ k + 1 ∧ (runLoop f m n s).2.2 = true := by
  intro k
  induction k with
  | zero =>
      intro s hk
      have hb := loopBody_breaks_past_end hw (show m < s.start_time_ms by omega)
      refine ⟨1, Nat.le_refl _, ?_⟩
      rcases hq : loopBody f m s with ⟨evs, s', b⟩
      rw [hq] at hb
      simp only at hb
      subst hb
      rw [runLoop_succ_broke hq]
  | succ k ih =>
      intro s hk
      rcases hq : loopBody f m s with ⟨evs, s', b⟩
      cases b with
      | true =>
          exact ⟨1, by omega, by rw [runLoop_succ_broke hq]⟩
      | false =>
          have hadv : s.start_time_ms < s'.start_time_ms := by
            have := cursor_advances hw (by rw [hq])
            rw [hq] at this
            exact this
          rcases ih s' (by omega) with ⟨n, hn, hb⟩
          refine ⟨n + 1, by omega, ?_⟩
          rw [runLoop_succ_cont hq]
          exact hb

/-- Once broken, any larger fuel still reports the break. -/
theorem runLoop_broke_mono {f : Nat → Nat → List KlineRow} {m : Nat} :
    ∀ n n' s, n ≤ n' → (runLoop f m n s).2.2 = true →
      (runLoop f m n' s).2.2 = true := by
  intro n
  induction n with
  | zero =>
      intro n' s _ hb
      simp [runLoop] at hb
  | succ n ih =>
      intro n' s hle hb
      rcases hq : loopBody f m s with ⟨evs, s', b⟩
      obtain ⟨n'', rfl⟩ : ∃ n'', n' = n'' + 1 := ⟨n' - 1, by omega⟩
      cases b with
      | true => rw [runLoop_succ_broke hq]
      | false =>
          rw [runLoop_succ_cont hq] at hb ⊢
          exact ih n'' s' (by omega) hb

/-- Whatever the branch, the state after an iteration holds only records
that were already accumulated or arrived in this iteration's page
(filtered to the cursor's day). -/
theorem cache_after_sub {f : Nat → Nat → List KlineRow} {m : Nat} {s : LoopState} :
    ∀ r ∈ (loopBody f m s).2.1.cache_tick, r ∈ s.cache_tick ++ keptOf f m s := by
  intro r hr
  cases hl : (pageOf f m s).getLast? with
  | none =>
      have hp : pageOf f m s = [] := List.getLast?_eq_none_iff.mp hl
      by_cases hnd : next_day_ms s.start_time_ms ≤ end_time_ms m s
      · rw [loopBody_empty_flush hp hnd] at hr
        simp at hr
      · by_cases hbr : m ≤ end_time_ms m s
        · rw [loopBody_empty_skip_break hp hnd hbr] at hr
          exact List.mem_append_left _ hr
        · rw [loopBody_empty_skip hp hnd hbr] at hr
          exact List.mem_append_left _ hr
  | some last =>
      by_cases hc : next_day_ms s.start_time_ms ≤ last.close_time + 1
      · rw [loopBody_cross hl hc] at hr
        simp at hr
      · by_cases hbr : m ≤ end_time_ms m s
        · rw [loopBody_within_break hl hc hbr] at hr
          exact hr
        · rw [loopBody_within hl hc hbr] at hr
          exact hr

/-- Invariant of C3 (amended): every accumulated record opens strictly
before the UTC midnight that ends the day containing the cursor. -/
def CacheBelowDayEnd (s : LoopState) : Prop :=
  ∀ r ∈ s.cache_tick, r.open_time < next_day_ms s.start_time_ms

/-- One non-breaking iteration preserves `CacheBelowDayEnd`. -/
theorem cacheBelowDayEnd_step {f : Nat → Nat → List KlineRow} {m : Nat} {s : LoopState}
    (hw : InWindow f) (hnb : (loopBody f m s).2.2 = false)
    (hinv : CacheBelowDayEnd s) : CacheBelowDayEnd (loopBody f m s).2.1 := by
  intro r hr
  have hmem := cache_after_sub (f := f) (m := m) (s := s) r hr
  have hold : r.open_time < next_day_ms s.start_time_ms := by
    rcases List.mem_append.mp hmem with hcache | hkept
    · exact hinv r hcache
    · exact (mem_keptOf.mp hkept).2
  have hadv : s.start_time_ms < (loopBody f m s).2.1.start_time_ms :=
    cursor_advances hw hnb
  exact Nat.lt_of_lt_of_le hold (next_day_ms_mono (Nat.le_of_lt hadv))

/-- Inside the loop, every flush clears the accumulator: a non-breaking
iteration that performed any `write_file` call leaves `cache_tick` empty. -/
theorem flush_clears_cache {f : Nat → Nat → List KlineRow} {m : Nat} {s : LoopState}
    (hnb : (loopBody f m s).2.2 = false)
    (hwr : writesOf (loopBody f m s).1 ≠ []) :
    (loopBody f m s).2.1.cache_tick = [] := by
  cases hl : (pageOf f m s).getLast? with
  | none =>
      have hp : pageOf f m s = [] := List.getLast?_eq_none_iff.mp hl
      by_cases hnd : next_day_ms s.start_time_ms ≤ end_time_ms m s
      · rw [loopBody_empty_flush hp hnd]
      · by_cases hbr : m ≤ end_time_ms m s
        · rw [loopBody_empty_skip_break hp hnd hbr] at hnb
          simp at hnb
        · rw [loopBody_empty_skip hp hnd hbr] at hwr
          simp [writesOf] at hwr
  | some last =>
      by_cases hc : next_day_ms s.start_time_ms ≤ last.close_time + 1
      · rw [loopBody_cross hl hc]
      · by_cases hbr : m ≤ end_time_ms m s
        · rw [loopBody_within_break hl hc hbr] at hnb
          simp at hnb
        · rw [loopBody_within hl hc hbr] at hwr
          simp [writesOf] at hwr

/-- `CacheBelowDayEnd` holds at every iteration boundary the run reaches
without breaking. -/
theorem cacheBelowDayEnd_run {f : Nat → Nat → List KlineRow} {m : Nat}
    (hw : InWindow f) :
    ∀ n s, CacheBelowDayEnd s → (runLoop f m n s).2.2 = false →
      CacheBelowDayEnd (runLoop f m n s).2.1 := by
  intro n
  induction n with
  | zero =>
      intro s hs _
      simpa [runLoop] using hs
  | succ n ih =>
      intro s hs hnb
      rcases hq : loopBody f m s with ⟨evs, s', b⟩
      cases b with
      | true =>
          rw [runLoop_succ_broke hq] at hnb
          simp at hnb
      | false =>
          have hs' : CacheBelowDayEnd s' := by
            have := cacheBelowDayEnd_step hw (by rw [hq]) hs
            rwa [hq] at this
          rw [runLoop_succ_cont hq] at hnb ⊢
          exact ih s' hs' hnb

/-- Strict `open_time` order on records. -/
def openLt (a b : KlineRow) : Prop := a.open_time < b.open_time

/-- Invariant of C9: the accumulator is in strictly ascending
`open_time` order and everything in it opens before the cursor. -/
def CacheSorted (s : LoopState) : Prop :=
  s.cache_tick.Pairwise openLt ∧ ∀ r ∈ s.cache_tick, r.open_time < s.start_time_ms

theorem writesOf_append (a b : List Ev) :
    writesOf (a ++ b) = writesOf a ++ writesOf b := by
  induction a with
  | nil => simp [writesOf]
  | cons e t ih => cases e <;> simp [writesOf, ih]

theorem requestsOf_append (a b : List Ev) :
    requestsOf (a ++ b) = requestsOf a ++ requestsOf b := by
  induction a with
  | nil => simp [requestsOf]
  | cons e t ih => cases e <;> simp [requestsOf, ih]

/-- The accumulator extended with the day-filtered page stays strictly
ascending, given the page contract and `CacheSorted`. -/
theorem cache_append_kept_pairwise {f : Nat → Nat → List KlineRow} {m : Nat}
    {s : LoopState} (hw : InWindow f) (ha : AscendingPages f) (hs : CacheSorted s) :
    (s.cache_tick ++ keptOf f m s).Pairwise openLt := by
  rcases hs with ⟨hpw, hlt⟩
  refine List.pairwise_append.mpr ⟨hpw, ?_, ?_⟩
  · exact List.Pairwise.sublist (List.filter_sublist _) (ha _ _)
  · intro a hca b hkb
    have hb : s.start_time_ms ≤ b.open_time := by
      have hbp : b ∈ pageOf f m s := (mem_keptOf.mp hkb).1
      exact (hw _ _ _ hbp).1
    exact Nat.lt_of_lt_of_le (hlt a hca) hb

/-- Every batch passed to `write_file` during one iteration is strictly
ascending in `open_time`, given the page contract and `CacheSorted`. -/
theorem step_writes_sorted {f : Nat → Nat → List KlineRow} {m : Nat} {s : LoopState}
    (hw : InWindow f) (ha : AscendingPages f) (hs : CacheSorted s) :
    ∀ w ∈ writesOf (loopBody f m s).1, w.1.Pairwise openLt := by
  intro w hwr
  have hck : (s.cache_tick ++ keptOf f m s).Pairwise openLt :=
    cache_append_kept_pairwise hw ha hs
  have hc : s.cache_tick.Pairwise openLt := hs.1
  cases hl : (pageOf f m s).getLast? with
  | none =>
      have hp : pageOf f m s = [] := List.getLast?_eq_none_iff.mp hl
      by_cases hnd : next_day_ms s.start_time_ms ≤ end_time_ms m s
      · rw [loopBody_empty_flush hp hnd] at hwr
        simp [writesOf] at hwr
        rw [hwr]
        exact hc
      · by_cases hbr : m ≤ end_time_ms m s
        · rw [loopBody_empty_skip_break hp hnd hbr] at hwr
          by_cases hemp : s.cache_tick.isEmpty
          · simp [writesOf, hemp] at hwr
          · simp only [hemp, ite_false, Bool.false_eq_true] at hwr
            simp [writesOf] at hwr
            rw [hwr]
            exact hc
        · rw [loopBody_empty_skip hp hnd hbr] at hwr
          simp [writesOf] at hwr
  | some last =>
      by_cases hc2 : next_day_ms s.start_time_ms ≤ last.close_time + 1
      · rw [loopBody_cross hl hc2] at hwr
        simp [writesOf] at hwr
        rw [hwr]
        exact hck
      · by_cases hbr : m ≤ end_time_ms m s
        · rw [loopBody_within_break hl hc2 hbr] at hwr
          by_cases hemp : (s.cache_tick ++ keptOf f m s).isEmpty
          · simp [writesOf, hemp] at hwr
          · simp only [hemp, ite_false, Bool.false_eq_true] at hwr
            simp [writesOf] at hwr
            rw [hwr]
            exact hck
        · rw [loopBody_within hl hc2 hbr] at hwr
          simp [writesOf] at hwr

/-- One non-breaking iteration preserves `CacheSorted`. -/
theorem cacheSorted_step {f : Nat → Nat → List KlineRow} {m : Nat} {s : LoopState}
    (hw : InWindow f) (ha : AscendingPages f)
    (hnb : (loopBody f m s).2.2 = false) (hs : CacheSorted s) :
    CacheSorted (loopBody f m s).2.1 := by
  have hck : (s.cache_tick ++ keptOf f m s).Pairwise openLt :=
    cache_append_kept_pairwise hw ha hs
  have hnpast : ¬ m < s.start_time_ms := by
    intro hlt
    rw [loopBody_breaks_past_end hw hlt] at hnb
    exact Bool.true_eq_false.mp hnb
  cases hl : (pageOf f m s).getLast? with
  | none =>
      have hp : pageOf f m s = [] := List.getLast?_eq_none_iff.mp hl
      by_cases hnd : next_day_ms s.start_time_ms ≤ end_time_ms m s
      · rw [loopBody_empty_flush hp hnd]
        exact ⟨List.Pairwise.nil, by simp⟩
      · by_cases hbr : m ≤ end_time_ms m s
        · rw [loopBody_empty_skip_break hp hnd hbr] at hnb
          simp at hnb
        · rw [loopBody_empty_skip hp hnd hbr]
          refine ⟨hs.1, ?_⟩
          intro r hr
          have := hs.2 r hr
          simp only [end_time_ms]
          omega
  | some last =>
      have hmem : last ∈ pageOf f m s := mem_of_getLast? hl
      have hlast : s.start_time_ms ≤ last.open_time := (hw _ _ _ hmem).1
      by_cases hc2 : next_day_ms s.start_time_ms ≤ last.close_time + 1
      · rw [loopBody_cross hl hc2]
        exact ⟨List.Pairwise.nil, by simp⟩
      · by_cases hbr : m ≤ end_time_ms m s
        · rw [loopBody_within_break hl hc2 hbr] at hnb
          simp at hnb
        · rw [loopBody_within hl hc2 hbr]
          dsimp only [CacheSorted]
          refine ⟨hck, ?_⟩
          intro r hr
          rcases List.mem_append.mp hr with hcr | hkr
          · have := hs.2 r hcr
            omega
          · have hrp : r ∈ pageOf f m s := (mem_keptOf.mp hkr).1
            have : r.open_time ≤ last.open_time :=
              le_getLast_of_pairwise (ha _ _) hrp hl
            omega

/-- `tableFetch` honours the window half of the page-source contract. -/
theorem tableFetch_inWindow (tbl : List KlineRow) : InWindow (tableFetch tbl) := by
  intro a b r hr
  rcases List.mem_filter.mp hr with ⟨_, hp⟩
  simp only [Bool.and_eq_true, decide_eq_true_eq] at hp
  exact hp

/-- `tableFetch` over a sorted table honours the ordering half of the
page-source contract. -/
theorem tableFetch_ascending {tbl : List KlineRow}
    (h : tbl.Pairwise (fun r r' => r.open_time < r'.open_time)) :
    AscendingPages (tableFetch tbl) := by
  intro a b
  exact List.Pairwise.sublist (List.filter_sublist _) h

/-- Each iteration issues exactly one page-source request, for the
window `[start_time_ms, end_time_ms]`. -/
theorem step_requests (f : Nat → Nat → List KlineRow) (m : Nat) (s : LoopState) :
    requestsOf (loopBody f m s).1 = [(s.start_time_ms, end_time_ms m s)] := by
  cases hl : (pageOf f m s).getLast? with
  | none =>
      have hp : pageOf f m s = [] := List.getLast?_eq_none_iff.mp hl
      by_cases hnd : next_day_ms s.start_time_ms ≤ end_time_ms m s
      · rw [loopBody_empty_flush hp hnd]
        simp [requestsOf]
      · by_cases hbr : m ≤ end_time_ms m s
        · rw [loopBody_empty_skip_break hp hnd hbr]
          by_cases hemp : s.cache_tick.isEmpty <;> simp [hemp, requestsOf]
        · rw [loopBody_empty_skip hp hnd hbr]
          simp [requestsOf]
  | some last =>
      by_cases hc : next_day_ms s.start_time_ms ≤ last.close_time + 1
      · rw [loopBody_cross hl hc]
        simp [requestsOf]
      · by_cases hbr : m ≤ end_time_ms m s
        · rw [loopBody_within_break hl hc hbr]
          by_cases hemp : (s.cache_tick ++ keptOf f m s).isEmpty <;>
            simp [hemp, requestsOf]
        · rw [loopBody_within hl hc hbr]
          simp [requestsOf]

/-- Invariant of C4 (amended): every accumulated record lies in the same
UTC day as the cursor. -/
def CacheSameDay (s : LoopState) : Prop :=
  ∀ r ∈ s.cache_tick, r.open_time / dayMs = s.start_time_ms / dayMs

/-- Every `write_file` call of one iteration passes the key derived from
that iteration's `start_time_ms`, and only records that were in the
accumulator or in the day-filtered page. -/
theorem step_writes_shape {f : Nat → Nat → List KlineRow} {m : Nat} {s : LoopState} :
    ∀ w ∈ writesOf (loopBody f m s).1,
      (w.2.1, w.2.2.1, w.2.2.2) = utcYmd s.start_time_ms ∧
      ∀ r ∈ w.1, r ∈ s.cache_tick ++ keptOf f m s := by
  intro w hwr
  cases hl : (pageOf f m s).getLast? with
  | none =>
      have hp : pageOf f m s = [] := List.getLast?_eq_none_iff.mp hl
      by_cases hnd : next_day_ms s.start_time_ms ≤ end_time_ms m s
      · rw [loopBody_empty_flush hp hnd] at hwr
        simp [writesOf] at hwr
        rw [hwr]
        exact ⟨rfl, fun r hr => List.mem_append_left _ hr⟩
      · by_cases hbr : m ≤ end_time_ms m s
        · rw [loopBody_empty_skip_break hp hnd hbr] at hwr
          by_cases hemp : s.cache_tick.isEmpty
          · simp [hemp, writesOf] at hwr
          · simp only [hemp, ite_false, Bool.false_eq_true] at hwr
            simp [writesOf] at hwr
            rw [hwr]
            exact ⟨rfl, fun r hr => List.mem_append_left _ hr⟩
        · rw [loopBody_empty_skip hp hnd hbr] at hwr
          simp [writesOf] at hwr
  | some last =>
      by_cases hc : next_day_ms s.start_time_ms ≤ last.close_time + 1
      · rw [loopBody_cross hl hc] at hwr
        simp [writesOf] at hwr
        rw [hwr]
        exact ⟨rfl, fun r hr => hr⟩
      · by_cases hbr : m ≤ end_time_ms m s
        · rw [loopBody_within_break hl hc hbr] at hwr
          by_cases hemp : (s.cache_tick ++ keptOf f m s).isEmpty
          · simp [hemp, writesOf] at hwr
          · simp only [hemp, ite_false, Bool.false_eq_true] at hwr
            simp [writesOf] at hwr
            rw [hwr]
            exact ⟨rfl, fun r hr => hr⟩
        · rw [loopBody_within hl hc hbr] at hwr
          simp [writesOf] at hwr

/-! ### Concrete scenario sources -/

/-- Source holding three consecutive 1-second bars around the first UTC
midnight after the epoch: 23:59:59, 00:00:00 and 00:00:01. -/
def srcA : List KlineRow :=
  [mkRow 86399000 86399999, mkRow 86400000 86400999, mkRow 86401000 86401999]

/-- Source with one bar late on day 1 and one early on day 2, with a gap
in between. -/
def srcB : List KlineRow := [mkRow 85799000 85799999, mkRow 86401000 86401999]

/-- Source with a single bar, ending more than one window before the day
boundary. -/
def srcC : List KlineRow := [mkRow 85799000 85799999]

/-! ### Claim C1 -/

/-- C1: the claim that every `open_time` the page source holds in the
overall range is eventually flushed, and that records filtered off a page
at the day boundary are re-fetched in the next day's first window, fails:
in the run over `[86399000, 86401000]` against a source holding bars at
86399000, 86400000 and 86401000, the day-crossing branch sets the cursor
to `last.open_time + 1000 = 86402000`, past the two filtered-out records,
which are therefore never fetched again; the completed run flushes only
86399000. -/
theorem c1_boundary_records_lost :
    ((tableFetch srcA 86399000 86401000).map KlineRow.open_time =
      [86399000, 86400000, 86401000]) ∧
    ((writesOf (runLoop (tableFetch srcA) 86401000 5 ⟨86399000, []⟩).1).map
      (fun w => w.1.map KlineRow.open_time) = [[86399000]]) ∧
    (runLoop (tableFetch srcA) 86401000 5 ⟨86399000, []⟩).2.2 = true ∧
    (runLoop (tableFetch srcA) 86401000 5 ⟨86399000, []⟩).2.1.cache_tick = [] := by
  decide

/-! ### Claim C2 -/

/-- C2 (amended): when the page source returns zero records and the
window's end is strictly before the next UTC day boundary (and the end of
the overall range has not been reached), no flush happens and the cursor
advances to exactly `end_time_ms + 1000` — not `end_time_ms + 1` as the
claim states — with the accumulator untouched. -/
theorem c2_empty_window_skip_advance
    (f : Nat → Nat → List KlineRow) (m : Nat) (s : LoopState)
    (hp : pageOf f m s = [])
    (hnd : end_time_ms m s < next_day_ms s.start_time_ms)
    (hbr : end_time_ms m s < m) :
    writesOf (loopBody f m s).1 = [] ∧
    (loopBody f m s).2.1.start_time_ms = end_time_ms m s + 1000 ∧
    (loopBody f m s).2.1.cache_tick = s.cache_tick ∧
    (loopBody f m s).2.2 = false := by
  rw [loopBody_empty_skip hp (by omega) (by omega)]
  exact ⟨by simp [writesOf], rfl, rfl, rfl⟩

/-- C2 witness: the general statement applied to a concrete empty-window
iteration. -/
theorem c2_empty_window_skip_advance_witness :
    writesOf (loopBody (fun _ _ => []) 1000000000 ⟨0, []⟩).1 = [] ∧
    (loopBody (fun _ _ => []) 1000000000 ⟨0, []⟩).2.1.start_time_ms =
      end_time_ms 1000000000 ⟨0, []⟩ + 1000 ∧
    (loopBody (fun _ _ => []) 1000000000 ⟨0, []⟩).2.1.cache_tick = [] ∧
    (loopBody (fun _ _ => []) 1000000000 ⟨0, []⟩).2.2 = false :=
  c2_empty_window_skip_advance (fun _ _ => []) 1000000000 ⟨0, []⟩ rfl
    (by decide) (by decide)

/-- C2 counterexample: at the concrete empty-window iteration with
cursor 0, the code sets the cursor to `600999 = window_end + 1000`,
refuting the claim's `window_end + 1`. -/
theorem c2_cursor_not_window_end_plus_one :
    pageOf (fun _ _ => []) 1000000000 ⟨0, []⟩ = [] ∧
    end_time_ms 1000000000 ⟨0, []⟩ = 599999 ∧
    end_time_ms 1000000000 ⟨0, []⟩ < next_day_ms 0 ∧
    (loopBody (fun _ _ => []) 1000000000 ⟨0, []⟩).2.1.start_time_ms = 600999 ∧
    600999 ≠ 599999 + 1 := by
  decide

/-! ### Claim C5 -/

/-- C5: when the page is non-empty and the last unfiltered record
satisfies `close_time + 1 ≥ next_day_ms`, the accumulator plus the
day-filtered page is flushed under the current day's key, every record of
that batch opens strictly before the boundary (given the accumulator
invariant), the cursor becomes `last.open_time + granularity`, the
accumulator is cleared, and the iteration continues without breaking. -/
theorem c5_day_cross_flush
    (f : Nat → Nat → List KlineRow) (m : Nat) (s : LoopState) (last : KlineRow)
    (hl : (pageOf f m s).getLast? = some last)
    (hc : next_day_ms s.start_time_ms ≤ last.close_time + 1)
    (hinv : CacheBelowDayEnd s) :
    writesOf (loopBody f m s).1 =
      [(s.cache_tick ++ keptOf f m s, (utcYmd s.start_time_ms).1,
        (utcYmd s.start_time_ms).2.1, (utcYmd s.start_time_ms).2.2)] ∧
    (∀ r ∈ s.cache_tick ++ keptOf f m s,
      r.open_time < next_day_ms s.start_time_ms) ∧
    (loopBody f m s).2.1 = ⟨last.open_time + 1000, []⟩ ∧
    (loopBody f m s).2.2 = false := by
  rw [loopBody_cross hl hc]
  refine ⟨by simp [writesOf], ?_, rfl, rfl⟩
  intro r hr
  rcases List.mem_append.mp hr with hcr | hkr
  · exact hinv r hcr
  · exact (mem_keptOf.mp hkr).2

/-- C5 witness: the day-crossing flush applied to the concrete crossing
page of `srcA`. -/
theorem c5_day_cross_flush_witness :
    writesOf (loopBody (tableFetch srcA) 86401000 ⟨86399000, []⟩).1 =
      [([] ++ keptOf (tableFetch srcA) 86401000 ⟨86399000, []⟩,
        (utcYmd 86399000).1, (utcYmd 86399000).2.1, (utcYmd 86399000).2.2)] ∧
    (loopBody (tableFetch srcA) 86401000 ⟨86399000, []⟩).2.1 =
      ⟨(mkRow 86401000 86401999).open_time + 1000, []⟩ ∧
    (loopBody (tableFetch srcA) 86401000 ⟨86399000, []⟩).2.2 = false := by
  have h := c5_day_cross_flush (tableFetch srcA) 86401000 ⟨86399000, []⟩
    (mkRow 86401000 86401999) (by decide) (by decide)
    (by intro r hr; simp at hr)
  exact ⟨h.1, h.2.2.1, h.2.2.2⟩

/-! ### Claim C6 -/

/-- C6: when the page source returns zero records and the window's end is
at or past the next UTC day boundary, the accumulator (possibly empty) is
flushed under the current day's key, the cursor is reset to exactly the
day boundary, the accumulator is cleared, and `write_file` of an empty
batch writes no rows (a no-op, not an error). -/
theorem c6_empty_window_day_exhausted
    (f : Nat → Nat → List KlineRow) (m : Nat) (s : LoopState)
    (hp : pageOf f m s = [])
    (hnd : next_day_ms s.start_time_ms ≤ end_time_ms m s) :
    writesOf (loopBody f m s).1 =
      [(s.cache_tick, (utcYmd s.start_time_ms).1, (utcYmd s.start_time_ms).2.1,
        (utcYmd s.start_time_ms).2.2)] ∧
    (loopBody f m s).2.1 = ⟨next_day_ms s.start_time_ms, []⟩ ∧
    write_file [] = [] := by
  rw [loopBody_empty_flush hp hnd]
  exact ⟨by simp [writesOf], rfl, rfl⟩

/-- C6 witness: the day-exhausted empty window applied to a concrete
iteration whose accumulator still holds one record. -/
theorem c6_empty_window_day_exhausted_witness :
    writesOf (loopBody (fun _ _ => []) 1000000000
      ⟨86399000, [mkRow 86300000 86300999]⟩).1 =
      [([mkRow 86300000 86300999], (utcYmd 86399000).1,
        (utcYmd 86399000).2.1, (utcYmd 86399000).2.2)] ∧
    (loopBody (fun _ _ => []) 1000000000 ⟨86399000, [mkRow 86300000 86300999]⟩).2.1 =
      ⟨next_day_ms 86399000, []⟩ ∧
    write_file [] = [] :=
  c6_empty_window_day_exhausted (fun _ _ => []) 1000000000
    ⟨86399000, [mkRow 86300000 86300999]⟩ rfl (by decide)

/-! ### Claim C3 -/

/-- C3 (amended): at every iteration boundary the run reaches without
breaking, every record in the accumulator opens strictly before the UTC
midnight ending the day that contains the *cursor* (after an empty-window
skip carries the cursor across midnight this can be a later day than the
first accumulated record's); and inside the loop every iteration that
flushed leaves the accumulator cleared. -/
theorem c3_cache_below_cursor_day_end
    (f : Nat → Nat → List KlineRow) (m : Nat) (hw : InWindow f) :
    (∀ n s, CacheBelowDayEnd s → (runLoop f m n s).2.2 = false →
      CacheBelowDayEnd (runLoop f m n s).2.1) ∧
    (∀ s, (loopBody f m s).2.2 = false → writesOf (loopBody f m s).1 ≠ [] →
      (loopBody f m s).2.1.cache_tick = []) :=
  ⟨cacheBelowDayEnd_run hw, fun _ => flush_clears_cache⟩

/-- C3 witness: the invariant applied after three iterations of the
`srcB` run, specialised to the record the accumulator then holds. -/
theorem c3_cache_below_cursor_day_end_witness :
    (mkRow 86401000 86401999).open_time <
      next_day_ms (runLoop (tableFetch srcB) 87001000 3
        ⟨85799000, []⟩).2.1.start_time_ms :=
  ((c3_cache_below_cursor_day_end (tableFetch srcB) 87001000
      (tableFetch_inWindow _)).1 3 ⟨85799000, []⟩
      (by intro r hr; simp at hr) (by decide))
    (mkRow 86401000 86401999) (by decide)

/-- C3 counterexample: after three iterations of the `srcB` run the
accumulator holds records opening at 85799000 (day one) and 86401000
(day two); the second is not below the midnight that ends the day of the
accumulator's first record, refuting the claim's bound. -/
theorem c3_first_record_day_violated :
    ((runLoop (tableFetch srcB) 87001000 3 ⟨85799000, []⟩).2.1.cache_tick.map
      KlineRow.open_time = [85799000, 86401000]) ∧
    (runLoop (tableFetch srcB) 87001000 3 ⟨85799000, []⟩).2.2 = false ∧
    ¬ ((86401000 : Nat) < next_day_ms 85799000) := by
  decide

/-! ### Claim C4 -/

/-- C4 (amended): whenever every record currently accumulated lies in the
same UTC day as the cursor, each `write_file` call of the iteration
passes a batch whose records all map to one `(year, month, day)` under
UTC, equal to the call's key, which is derived from the cursor. -/
theorem c4_same_day_flush_key
    (f : Nat → Nat → List KlineRow) (m : Nat) (s : LoopState)
    (hw : InWindow f) (hs : CacheSameDay s) :
    ∀ w ∈ writesOf (loopBody f m s).1,
      (∀ r ∈ w.1, utcYmd r.open_time = (w.2.1, w.2.2.1, w.2.2.2)) ∧
      (w.2.1, w.2.2.1, w.2.2.2) = utcYmd s.start_time_ms := by
  intro w hwr
  obtain ⟨hkey, hsub⟩ := step_writes_shape w hwr
  refine ⟨?_, hkey⟩
  intro r hr
  have hm := hsub r hr
  have hday : r.open_time / dayMs = s.start_time_ms / dayMs := by
    rcases List.mem_append.mp hm with hcr | hkr
    · exact hs r hcr
    · obtain ⟨hp, hlt⟩ := mem_keptOf.mp hkr
      exact next_day_ms_day_eq (hw _ _ _ hp).1 hlt
  rw [hkey]
  show utcYmd r.open_time = utcYmd s.start_time_ms
  unfold utcYmd
  rw [hday]

/-- C4 witness: the day-partition property applied to the crossing
iteration of the `srcA` run, specialised to its flushed record. -/
theorem c4_same_day_flush_key_witness :
    utcYmd (mkRow 86399000 86399999).open_time = (1970, 1, 1) :=
  ((c4_same_day_flush_key (tableFetch srcA) 86401000 ⟨86399000, []⟩
      (tableFetch_inWindow _) (by intro r hr; simp at hr))
    ([mkRow 86399000 86399999], 1970, 1, 1) (by decide)).1
    (mkRow 86399000 86399999) (by decide)

/-- C4 counterexample: in the `srcC` run the final flush writes the
day-one record opening at 85799000 under the key `(1970, 1, 2)` derived
from the cursor, which has drifted into day two — the batch's day does
not match the call's key. -/
theorem c4_flush_key_mismatch :
    ((writesOf (runLoop (tableFetch srcC) 86401999 4 ⟨85799000, []⟩).1).map
      (fun w => (w.1.map KlineRow.open_time, w.2)) = [([85799000], 1970, 1, 2)]) ∧
    utcYmd 85799000 = (1970, 1, 1) ∧
    ((1970, 1, 1) : Nat × Nat × Nat) ≠ (1970, 1, 2) := by
  decide

/-! ### Claim C7 -/

/-- C7 (amended): with an in-window page source the run always breaks
within `max_end_time_ms + 2` iterations — the loop body executes finitely
often.  (The claim's further assertion that no request is ever issued
with a window starting past the overall end is refuted separately.) -/
theorem c7_run_terminates
    (f : Nat → Nat → List KlineRow) (m : Nat) (s0 : LoopState)
    (hw : InWindow f) :
    (runLoop f m (m + 2) s0).2.2 = true := by
  obtain ⟨n, hn, hb⟩ := runLoop_reaches_break hw (m + 1) s0
    (show m + 1 ≤ s0.start_time_ms + (m + 1) by omega)
  exact runLoop_broke_mono n (m + 2) s0 (by omega) hb

/-- C7 witness: termination applied to a concrete empty source. -/
theorem c7_run_terminates_witness :
    (runLoop (fun _ _ => []) 5 7 ⟨0, []⟩).2.2 = true :=
  c7_run_terminates (fun _ _ => []) 5 ⟨0, []⟩ (by intro a b r hr; simp at hr)

/-- C7 counterexample: the `srcA` run issues a second request whose
window starts at 86402000, strictly past the overall end 86401000,
refuting the claim that no request ever starts past `overall_end_ms`. -/
theorem c7_request_past_overall_end :
    requestsOf (runLoop (tableFetch srcA) 86401000 5 ⟨86399000, []⟩).1 =
      [(86399000, 86401000), (86402000, 86401000)] ∧
    (86401000 : Nat) < 86402000 := by
  decide

/-! ### Claim C8 -/

/-- C8 (amended): the program performs no ordering or window validation
on a returned page — whatever the page source returns, the day-filtered
records are appended to the accumulator and the cursor is computed from
the page's last record (here in the stay-within-day branch). -/
theorem c8_page_accepted_unvalidated
    (f : Nat → Nat → List KlineRow) (m : Nat) (s : LoopState) (last : KlineRow)
    (hl : (pageOf f m s).getLast? = some last)
    (hc : ¬ next_day_ms s.start_time_ms ≤ last.close_time + 1) :
    (loopBody f m s).2.1.cache_tick = s.cache_tick ++ keptOf f m s ∧
    (loopBody f m s).2.1.start_time_ms = last.open_time + 1000 := by
  by_cases hbr : m ≤ end_time_ms m s
  · rw [loopBody_within_break hl hc hbr]
    exact ⟨rfl, rfl⟩
  · rw [loopBody_within hl hc hbr]
    exact ⟨rfl, rfl⟩

/-- C8 witness: the acceptance statement applied to a concrete page that
violates the window contract. -/
theorem c8_page_accepted_unvalidated_witness :
    (loopBody (fun _ _ => [mkRow 42 1041]) 1000000000 ⟨10000000, []⟩).2.1.cache_tick =
      [] ++ keptOf (fun _ _ => [mkRow 42 1041]) 1000000000 ⟨10000000, []⟩ ∧
    (loopBody (fun _ _ => [mkRow 42 1041]) 1000000000 ⟨10000000, []⟩).2.1.start_time_ms =
      (mkRow 42 1041).open_time + 1000 :=
  c8_page_accepted_unvalidated (fun _ _ => [mkRow 42 1041]) 1000000000
    ⟨10000000, []⟩ (mkRow 42 1041) rfl (by decide)

/-- C8 counterexample: a page whose record opens at 42 — far outside the
requested window `[10000000, 10599999]` — is silently accepted: it lands
in the accumulator, the cursor becomes 1042, and no rejection or error
event is produced, refuting the claimed `ContractViolation` rejection. -/
theorem c8_out_of_window_accepted :
    pageOf (fun _ _ => [mkRow 42 1041]) 1000000000 ⟨10000000, []⟩ =
      [mkRow 42 1041] ∧
    (mkRow 42 1041).open_time < 10000000 ∧
    (loopBody (fun _ _ => [mkRow 42 1041]) 1000000000 ⟨10000000, []⟩).2.1.cache_tick =
      [mkRow 42 1041] ∧
    (loopBody (fun _ _ => [mkRow 42 1041]) 1000000000 ⟨10000000, []⟩).2.1.start_time_ms =
      1042 ∧
    writesOf (loopBody (fun _ _ => [mkRow 42 1041]) 1000000000 ⟨10000000, []⟩).1 = [] := by
  decide

/-! ### Claim C9 -/

/-- C9: with a page source returning in-window, strictly ascending pages,
every batch passed to `write_file` over a whole run from a sorted state
(in particular the initial empty accumulator) is in strictly ascending
`open_time` order, including across the page boundaries feeding one
batch. -/
theorem c9_flush_batches_ascending
    (f : Nat → Nat → List KlineRow) (m : Nat)
    (hw : InWindow f) (ha : AscendingPages f) :
    ∀ n s, CacheSorted s →
      ∀ w ∈ writesOf (runLoop f m n s).1, w.1.Pairwise openLt := by
  intro n
  induction n with
  | zero =>
      intro s _ w hwr
      simp [runLoop, writesOf] at hwr
  | succ n ih =>
      intro s hs w hwr
      rcases hq : loopBody f m s with ⟨evs, s', b⟩
      have hstep : ∀ w ∈ writesOf evs, w.1.Pairwise openLt := by
        have := step_writes_sorted (m := m) hw ha hs
        rw [hq] at this
        exact this
      cases b with
      | true =>
          rw [runLoop_succ_broke hq] at hwr
          exact hstep w hwr
      | false =>
          rw [runLoop_succ_cont hq] at hwr
          dsimp only at hwr
          rw [writesOf_append] at hwr
          rcases List.mem_append.mp hwr with h1 | h2
          · exact hstep w h1
          · have hs' : CacheSorted s' := by
              have := cacheSorted_step hw ha (by rw [hq]) hs
              rwa [hq] at this
            exact ih s' hs' w h2

/-- C9 witness: the ordering property applied to the `srcA` run,
specialised to its one flushed batch. -/
theorem c9_flush_batches_ascending_witness :
    ([mkRow 86399000 86399999] : List KlineRow).Pairwise openLt :=
  c9_flush_batches_ascending (tableFetch srcA) 86401000
    (tableFetch_inWindow _) (tableFetch_ascending (by decide)) 5 ⟨86399000, []⟩
    ⟨List.Pairwise.nil, by intro r hr; simp at hr⟩
    ([mkRow 86399000 86399999], 1970, 1, 1) (by decide)

/-! ### Claim C10 -/

/-- C10: whenever the page is non-empty and its last unfiltered record
satisfies `close_time + 1 ≥ next_day_ms`, the iteration ends in `continue`
without reaching the end-of-range check (`broke = false` no matter how
`end_time_ms` compares to `max_end_time_ms`), so the run always issues one
further page request; in the concrete `srcA` run whose crossing window
already ends at the overall end, that further request starts at 86402000,
past the overall end 86401000. -/
theorem c10_continue_skips_end_check
    (f : Nat → Nat → List KlineRow) (m : Nat) (s : LoopState) (last : KlineRow)
    (hl : (pageOf f m s).getLast? = some last)
    (hc : next_day_ms s.start_time_ms ≤ last.close_time + 1) :
    ((loopBody f m s).2.2 = false ∧
     requestsOf (runLoop f m 2 s).1 =
       [(s.start_time_ms, end_time_ms m s),
        ((loopBody f m s).2.1.start_time_ms,
         end_time_ms m (loopBody f m s).2.1)]) ∧
    (end_time_ms 86401000 (⟨86399000, []⟩ : LoopState) = 86401000 ∧
     requestsOf (runLoop (tableFetch srcA) 86401000 2 ⟨86399000, []⟩).1 =
       [(86399000, 86401000), (86402000, 86401000)] ∧
     (86401000 : Nat) < 86402000) := by
  have h := loopBody_cross hl hc
  refine ⟨⟨by rw [h], ?_⟩, by decide⟩
  rw [runLoop_succ_cont h]
  dsimp only
  rw [requestsOf_append]
  have h1 : requestsOf [Ev.fetchReq s.start_time_ms (end_time_ms m s) (pageOf f m s),
      Ev.writeReq (s.cache_tick ++ keptOf f m s) (utcYmd s.start_time_ms).1
        (utcYmd s.start_time_ms).2.1 (utcYmd s.start_time_ms).2.2] =
      [(s.start_time_ms, end_time_ms m s)] := by
    simp [requestsOf]
  rw [h1]
  have h2 : requestsOf (runLoop f m 1 (⟨last.open_time + 1000, []⟩ : LoopState)).1 =
      [((⟨last.open_time + 1000, []⟩ : LoopState).start_time_ms,
        end_time_ms m (⟨last.open_time + 1000, []⟩ : LoopState))] := by
    rcases hq' : loopBody f m (⟨last.open_time + 1000, []⟩ : LoopState) with ⟨evs', s'', b'⟩
    have hr' := step_requests f m (⟨last.open_time + 1000, []⟩ : LoopState)
    rw [hq'] at hr'
    cases b' with
    | true => rw [runLoop_succ_broke hq']; exact hr'
    | false =>
        rw [runLoop_succ_cont hq']
        dsimp only
        rw [show runLoop f m 0 s'' = ([], s'', false) from rfl]
        dsimp only
        rw [List.append_nil]
        exact hr'
  rw [h2, h]
  dsimp only
  simp

/-- C10 witness: the skip-the-end-check behaviour applied to the
concrete crossing iteration of the `srcA` run. -/
theorem c10_continue_skips_end_check_witness :
    (loopBody (tableFetch srcA) 86401000 ⟨86399000, []⟩).2.2 = false :=
  (c10_continue_skips_end_check (tableFetch srcA) 86401000 ⟨86399000, []⟩
    (mkRow 86401000 86401999) (by decide) (by decide)).1.1
